import Mathlib

/-!
# Shallow embedding of `SBOMRegistry.sol`

This file embeds the state and operations of the `SBOMRegistry` smart
contract (`src/contracts/SBOMRegistry.sol`) in Lean and proves the spec's
claims about it.

Modelling conventions:
* `address` and `bytes32` become `Nat` (only equality, the zero value, and
  map-key use matter to the contract logic).
* `bytes` becomes `List Nat` (one `Nat` per byte).
* Solidity mappings become total functions with the zero value as default,
  exactly as the EVM presents them; "a record exists" is the contract's own
  test `timestamp != 0`.
* `keccak256` and `ecrecover` are fields of an abstract `Crypto` structure:
  the contract treats them as pure oracles.
* Each external function becomes a pure function
  `RegistryState → args → Except RError RegistryState`; an `Except.error`
  is a reverted transaction, so the caller-visible post-state is the
  pre-state (function `step` below absorbs reverts, mirroring the EVM's
  commit-or-nothing semantics).
* `block.timestamp` becomes an explicit `now : Nat` argument; reachable
  traces restrict it to `now ≠ 0`, as on a real chain.
-/

namespace SBOMReg

/-- The two cryptographic primitives the contract consumes, kept abstract:
`keccak` is `keccak256` on a byte string, `ecrecover digest v r s` is the
EVM's `ecrecover` precompile (which returns an address, `0` on failure,
and never reverts). -/
structure Crypto where
  keccak : List Nat → Nat
  ecrecover : Nat → Nat → Nat → Nat → Nat

/-- Struct `SBOMRecord` of the contract. -/
structure SBOMRecord where
  hash : Nat
  vendor : Nat
  timestamp : Nat
  metadata : String
  previousHash : Nat
  signature : List Nat
deriving DecidableEq, Repr

/-- The all-zero `SBOMRecord`: what an EVM mapping returns for an absent key. -/
def SBOMRecord.zero : SBOMRecord :=
  { hash := 0, vendor := 0, timestamp := 0, metadata := "", previousHash := 0, signature := [] }

/-- Struct `VendorInfo` of the contract. -/
structure VendorInfo where
  name : String
  website : String
  contactEmail : String
  verified : Bool
  registeredAt : Nat
deriving DecidableEq, Repr

/-- The all-zero `VendorInfo`. -/
def VendorInfo.zero : VendorInfo :=
  { name := "", website := "", contactEmail := "", verified := false, registeredAt := 0 }

/-- The contract's storage: the four mappings and the owner address. -/
structure RegistryState where
  sbomRecords : Nat → SBOMRecord
  versionHistory : Nat → List Nat
  rootHash : Nat → Nat
  vendors : Nat → VendorInfo
  registryOwner : Nat

/-- Post-constructor state: empty mappings, `registryOwner = msg.sender`. -/
def genesis (owner : Nat) : RegistryState :=
  { sbomRecords := fun _ => SBOMRecord.zero
    versionHistory := fun _ => []
    rootHash := fun _ => 0
    vendors := fun _ => VendorInfo.zero
    registryOwner := owner }

/-- The failure taxonomy (spec §7); each constructor corresponds to one
`require` site of the contract. -/
inductive RError where
  | Unauthorized
  | InvalidIdentity
  | EmptyName
  | DuplicatePublisher
  | NotVerified
  | RecordAlreadyExists
  | RecordNotFound
  | NotOriginalPublisher
  | PublisherNotVerified
  | InvalidSignatureLength
  | InvalidSignatureVersion
  | SignatureMismatch
deriving DecidableEq, Repr

/-- Big-endian byte-string to number (how `mload` reads a 32-byte word). -/
def bytesToNat (bs : List Nat) : Nat :=
  bs.foldl (fun a b => a * 256 + b) 0

/-- A number as 32 big-endian bytes (how `abi.encodePacked` lays out a `bytes32`). -/
def natToBytes32 (n : Nat) : List Nat :=
  (List.range 32).map (fun i => n / 256 ^ (31 - i) % 256)

/-- The bytes of `"\x19Ethereum Signed Message:\n32"`. -/
def ethMessagePrefixBytes : List Nat :=
  0x19 :: ("Ethereum Signed Message:\n32".toList.map Char.toNat)

/-- `keccak256(abi.encodePacked("\x19Ethereum Signed Message:\n32", _hash))`. -/
def ethSignedHash (C : Crypto) (hash : Nat) : Nat :=
  C.keccak (ethMessagePrefixBytes ++ natToBytes32 hash)

/-- `r` of a 65-byte signature: bytes 0..31 as a big-endian word. -/
def sigR (sig : List Nat) : Nat := bytesToNat (sig.take 32)

/-- `s` of a 65-byte signature: bytes 32..63 as a big-endian word. -/
def sigS (sig : List Nat) : Nat := bytesToNat ((sig.drop 32).take 32)

/-- `v` of a 65-byte signature: byte 64. -/
def sigV (sig : List Nat) : Nat := sig.getD 64 0

/-- The contract's `v` normalization: `if (v < 27) v += 27`. -/
def sigVNorm (sig : List Nat) : Nat :=
  if sigV sig < 27 then sigV sig + 27 else sigV sig

/-- `recoverSigner(_hash, _signature)`: length check, `v` normalization and
check, then `ecrecover` on the prefixed digest. Pure: reads and writes no
state. -/
def recoverSigner (C : Crypto) (hash : Nat) (sig : List Nat) : Except RError Nat :=
  if sig.length ≠ 65 then .error .InvalidSignatureLength
  else if sigVNorm sig = 27 ∨ sigVNorm sig = 28 then
    .ok (C.ecrecover (ethSignedHash C hash) (sigVNorm sig) (sigR sig) (sigS sig))
  else .error .InvalidSignatureVersion

/-- `registerVendor(_vendor, _name, _website, _contactEmail)` called by `sender`. -/
def registerVendor (s : RegistryState) (sender vendor : Nat)
    (name website email : String) (now : Nat) : Except RError RegistryState :=
  if sender ≠ s.registryOwner then .error .Unauthorized
  else if vendor = 0 then .error .InvalidIdentity
  else if (s.vendors vendor).verified = true then .error .DuplicatePublisher
  else if name = "" then .error .EmptyName
  else
    let info : VendorInfo :=
      { name := name, website := website, contactEmail := email,
        verified := true, registeredAt := now }
    .ok { s with vendors := fun a => if a = vendor then info else s.vendors a }

/-- `revokeVendor(_vendor)` called by `sender`: flips `verified` to `false`,
keeping the other `VendorInfo` fields. -/
def revokeVendor (s : RegistryState) (sender vendor : Nat) (_now : Nat) :
    Except RError RegistryState :=
  if sender ≠ s.registryOwner then .error .Unauthorized
  else if (s.vendors vendor).verified = false then .error .NotVerified
  else
    let info : VendorInfo := { s.vendors vendor with verified := false }
    .ok { s with vendors := fun a => if a = vendor then info else s.vendors a }

/-- `transferOwnership(_newOwner)` called by `sender`. -/
def transferOwnership (s : RegistryState) (sender newOwner : Nat) :
    Except RError RegistryState :=
  if sender ≠ s.registryOwner then .error .Unauthorized
  else if newOwner = 0 then .error .InvalidIdentity
  else .ok { s with registryOwner := newOwner }

/-- `isVerifiedVendor(_vendor)`. -/
def isVerifiedVendor (s : RegistryState) (vendor : Nat) : Bool :=
  (s.vendors vendor).verified

/-- `getVendorInfo(_vendor)`. -/
def getVendorInfo (s : RegistryState) (vendor : Nat) : VendorInfo :=
  s.vendors vendor

/-- The storage writes of `registerSBOM`'s commit block. -/
def registerState (s : RegistryState) (sender now hash : Nat) (md : String)
    (sig : List Nat) : RegistryState :=
  let rec0 : SBOMRecord :=
    { hash := hash, vendor := sender, timestamp := now, metadata := md,
      previousHash := 0, signature := sig }
  { s with
    sbomRecords := fun h => if h = hash then rec0 else s.sbomRecords h
    rootHash := fun h => if h = hash then hash else s.rootHash h
    versionHistory := fun h =>
      if h = hash then s.versionHistory hash ++ [hash] else s.versionHistory h }

/-- `registerSBOM(_hash, _metadata, _signature)` called by `sender` at time `now`. -/
def registerSBOM (C : Crypto) (s : RegistryState) (sender now hash : Nat)
    (md : String) (sig : List Nat) : Except RError RegistryState :=
  if (s.sbomRecords hash).timestamp ≠ 0 then .error .RecordAlreadyExists
  else if sig.length ≠ 65 then .error .InvalidSignatureLength
  else match recoverSigner C hash sig with
  | .error e => .error e
  | .ok signer =>
    if signer ≠ sender then .error .SignatureMismatch
    else if (s.vendors sender).verified = false then .error .PublisherNotVerified
    else .ok (registerState s sender now hash md sig)

/-- The storage writes of `updateSBOM`'s commit block
(`root = rootHash[_oldHash]` read from the pre-state). -/
def updateState (s : RegistryState) (sender now oldHash newHash : Nat)
    (md : String) (sig : List Nat) : RegistryState :=
  let rec0 : SBOMRecord :=
    { hash := newHash, vendor := sender, timestamp := now, metadata := md,
      previousHash := oldHash, signature := sig }
  { s with
    sbomRecords := fun h => if h = newHash then rec0 else s.sbomRecords h
    rootHash := fun h => if h = newHash then s.rootHash oldHash else s.rootHash h
    versionHistory := fun h =>
      if h = s.rootHash oldHash then s.versionHistory (s.rootHash oldHash) ++ [newHash]
      else s.versionHistory h }

/-- `updateSBOM(_oldHash, _newHash, _metadata, _signature)` called by `sender`
at time `now`. -/
def updateSBOM (C : Crypto) (s : RegistryState) (sender now oldHash newHash : Nat)
    (md : String) (sig : List Nat) : Except RError RegistryState :=
  if (s.sbomRecords oldHash).timestamp = 0 then .error .RecordNotFound
  else if (s.sbomRecords oldHash).vendor ≠ sender then .error .NotOriginalPublisher
  else if (s.sbomRecords newHash).timestamp ≠ 0 then .error .RecordAlreadyExists
  else if sig.length ≠ 65 then .error .InvalidSignatureLength
  else match recoverSigner C newHash sig with
  | .error e => .error e
  | .ok signer =>
    if signer ≠ sender then .error .SignatureMismatch
    else .ok (updateState s sender now oldHash newHash md sig)

/-- `verifySignature(_hash)`: a `view` function that can still revert (via
`recoverSigner`), hence `Except`. -/
def verifySignature (C : Crypto) (s : RegistryState) (hash : Nat) :
    Except RError (Bool × Nat) :=
  if (s.sbomRecords hash).timestamp = 0 then .ok (false, 0)
  else match recoverSigner C hash (s.sbomRecords hash).signature with
  | .error e => .error e
  | .ok signer => .ok (signer = (s.sbomRecords hash).vendor, signer)

/-- `verifySBOM(_hash)`: existence flag plus the raw record. -/
def verifySBOM (s : RegistryState) (hash : Nat) : Bool × SBOMRecord :=
  ((s.sbomRecords hash).timestamp ≠ 0, s.sbomRecords hash)

/-- `verifyCompleteSBOM(_hash)`:
`(exists, signatureValid, vendorVerified, vendorName)`. -/
def verifyCompleteSBOM (C : Crypto) (s : RegistryState) (hash : Nat) :
    Except RError (Bool × Bool × Bool × String) :=
  if (s.sbomRecords hash).timestamp = 0 then .ok (false, false, false, "")
  else match verifySignature C s hash with
  | .error e => .error e
  | .ok (valid, _) =>
    .ok (true, valid, (s.vendors (s.sbomRecords hash).vendor).verified,
      (s.vendors (s.sbomRecords hash).vendor).name)

/-- `getVersionHistory(_hash)`: resolves through `rootHash` first. -/
def getVersionHistory (s : RegistryState) (hash : Nat) : List Nat :=
  s.versionHistory (s.rootHash hash)

/-- `getVersionCount(_hash)`. -/
def getVersionCount (s : RegistryState) (hash : Nat) : Nat :=
  (s.versionHistory (s.rootHash hash)).length

/-- `getRootHash(_hash)`. -/
def getRootHash (s : RegistryState) (hash : Nat) : Nat :=
  s.rootHash hash

/-- Is an `Except` a success? -/
def exceptOk {α : Type} (e : Except RError α) : Bool :=
  match e with
  | .ok _ => true
  | .error _ => false

/-- One external transaction of the contract, with its caller and timestamp. -/
inductive Op where
  | registerVendor (sender vendor : Nat) (name website email : String) (now : Nat)
  | revokeVendor (sender vendor : Nat) (now : Nat)
  | transferOwnership (sender newOwner : Nat)
  | registerSBOM (sender hash : Nat) (md : String) (sig : List Nat) (now : Nat)
  | updateSBOM (sender oldHash newHash : Nat) (md : String) (sig : List Nat) (now : Nat)

/-- On a real chain `block.timestamp` is never `0`; record-creating
transactions carry a nonzero time. -/
def wfOp : Op → Bool
  | .registerSBOM _ _ _ _ now => now != 0
  | .updateSBOM _ _ _ _ _ now => now != 0
  | _ => true

/-- Dispatch one transaction. -/
def txApply (C : Crypto) (s : RegistryState) : Op → Except RError RegistryState
  | .registerVendor sender vendor name website email now =>
    registerVendor s sender vendor name website email now
  | .revokeVendor sender vendor now => revokeVendor s sender vendor now
  | .transferOwnership sender newOwner => transferOwnership s sender newOwner
  | .registerSBOM sender hash md sig now => registerSBOM C s sender now hash md sig
  | .updateSBOM sender oldHash newHash md sig now =>
    updateSBOM C s sender now oldHash newHash md sig

/-- Commit-or-nothing: a reverted transaction leaves the state unchanged. -/
def step (C : Crypto) (s : RegistryState) (op : Op) : RegistryState :=
  match txApply C s op with
  | .ok s' => s'
  | .error _ => s

/-- Run a list of transactions from a state. -/
def run (C : Crypto) (s : RegistryState) (ops : List Op) : RegistryState :=
  ops.foldl (step C) s

/-- The contract's own existence test: `sbomRecords[h].timestamp != 0`. -/
def Registered (s : RegistryState) (h : Nat) : Prop :=
  (s.sbomRecords h).timestamp ≠ 0

instance (s : RegistryState) (h : Nat) : Decidable (Registered s h) := by
  unfold Registered; infer_instance

/-- States reachable from deployment by well-formed transactions. -/
def Reachable (C : Crypto) (s : RegistryState) : Prop :=
  ∃ owner ops, ops.all wfOp = true ∧ run C (genesis owner) ops = s

/-! ## Concrete instances used by witnesses and counterexamples

`testCrypto` is one admissible behaviour of the abstract primitives: the
claims proved for every `Crypto` are instantiated at it, and counterexample
traces use it to build signatures that recover to a chosen address (on the
real curve one gets such a signature by signing with that address's key). -/

/-- A concrete `Crypto` instance for witnesses: `ecrecover` returns the
`r` scalar as the address. -/
def testCrypto : Crypto :=
  { keccak := fun _ => 0, ecrecover := fun _ _ r _ => r }

/-- A 65-byte signature whose `r` scalar is `a` and whose `v` byte is 27:
under `testCrypto` it recovers to address `a` over any digest. -/
def sigFor (a : Nat) : List Nat :=
  List.replicate 31 0 ++ [a % 256] ++ List.replicate 32 0 ++ [27]

/-- Demo trace: owner `100` verifies vendor `1` ("Acme"). -/
def demoOpsV : List Op :=
  [.registerVendor 100 1 "Acme" "https://acme.example" "sec@acme.example" 1]

/-- The state after `demoOpsV`. -/
def demoSV : RegistryState := run testCrypto (genesis 100) demoOpsV

/-- Demo trace: owner `100` verifies vendor `1` ("Acme"), who registers
SBOM hash `5`. -/
def demoOps1 : List Op :=
  [.registerVendor 100 1 "Acme" "https://acme.example" "sec@acme.example" 1,
   .registerSBOM 1 5 "v1" (sigFor 1) 2]

/-- The state after `demoOps1`. -/
def demoS1 : RegistryState := run testCrypto (genesis 100) demoOps1

/-- Demo trace extending `demoOps1`: vendor `1` updates `5 → 6`. -/
def demoOpsFork : List Op := demoOps1 ++ [.updateSBOM 1 5 6 "v2" (sigFor 1) 3]

/-- The state after `demoOpsFork`: hash `5` already has successor `6`. -/
def demoSFork : RegistryState := run testCrypto (genesis 100) demoOpsFork

/-- Demo trace extending `demoOps1`: owner revokes vendor `1`. -/
def demoOpsRevoked : List Op := demoOps1 ++ [.revokeVendor 100 1 3]

/-- The state after `demoOpsRevoked`. -/
def demoSRevoked : RegistryState := run testCrypto (genesis 100) demoOpsRevoked

/-- Trace registering the zero hash (`bytes32(0)`), which nothing in the
contract forbids. -/
def zeroOps : List Op :=
  [.registerVendor 100 1 "Acme" "https://acme.example" "sec@acme.example" 1,
   .registerSBOM 1 0 "z1" (sigFor 1) 2]

/-- The state after `zeroOps`. -/
def zeroS : RegistryState := run testCrypto (genesis 100) zeroOps

/-- Trace extending `zeroOps` with an update `0 → 5`: the new record has
`previousHash = 0` yet is not its own root. -/
def zeroOpsUpd : List Op := zeroOps ++ [.updateSBOM 1 0 5 "z2" (sigFor 1) 3]

/-- The state after `zeroOpsUpd`. -/
def zeroSUpd : RegistryState := run testCrypto (genesis 100) zeroOpsUpd

/-! ## Characterization and frame lemmas -/

theorem registerState_records (s : RegistryState) (sender now hash : Nat) (md : String)
    (sig : List Nat) (h : Nat) :
    (registerState s sender now hash md sig).sbomRecords h =
      if h = hash then
        { hash := hash, vendor := sender, timestamp := now, metadata := md,
          previousHash := 0, signature := sig }
      else s.sbomRecords h := rfl

theorem registerState_root (s : RegistryState) (sender now hash : Nat) (md : String)
    (sig : List Nat) (h : Nat) :
    (registerState s sender now hash md sig).rootHash h =
      if h = hash then hash else s.rootHash h := rfl

theorem registerState_hist (s : RegistryState) (sender now hash : Nat) (md : String)
    (sig : List Nat) (h : Nat) :
    (registerState s sender now hash md sig).versionHistory h =
      if h = hash then s.versionHistory hash ++ [hash] else s.versionHistory h := rfl

theorem registerState_vendors (s : RegistryState) (sender now hash : Nat) (md : String)
    (sig : List Nat) :
    (registerState s sender now hash md sig).vendors = s.vendors := rfl

theorem registerState_owner (s : RegistryState) (sender now hash : Nat) (md : String)
    (sig : List Nat) :
    (registerState s sender now hash md sig).registryOwner = s.registryOwner := rfl

theorem updateState_records (s : RegistryState) (sender now oldHash newHash : Nat)
    (md : String) (sig : List Nat) (h : Nat) :
    (updateState s sender now oldHash newHash md sig).sbomRecords h =
      if h = newHash then
        { hash := newHash, vendor := sender, timestamp := now, metadata := md,
          previousHash := oldHash, signature := sig }
      else s.sbomRecords h := rfl

theorem updateState_root (s : RegistryState) (sender now oldHash newHash : Nat)
    (md : String) (sig : List Nat) (h : Nat) :
    (updateState s sender now oldHash newHash md sig).rootHash h =
      if h = newHash then s.rootHash oldHash else s.rootHash h := rfl

theorem updateState_hist (s : RegistryState) (sender now oldHash newHash : Nat)
    (md : String) (sig : List Nat) (h : Nat) :
    (updateState s sender now oldHash newHash md sig).versionHistory h =
      if h = s.rootHash oldHash then s.versionHistory (s.rootHash oldHash) ++ [newHash]
      else s.versionHistory h := rfl

theorem updateState_vendors (s : RegistryState) (sender now oldHash newHash : Nat)
    (md : String) (sig : List Nat) :
    (updateState s sender now oldHash newHash md sig).vendors = s.vendors := rfl

theorem updateState_owner (s : RegistryState) (sender now oldHash newHash : Nat)
    (md : String) (sig : List Nat) :
    (updateState s sender now oldHash newHash md sig).registryOwner = s.registryOwner := rfl

/-- Success characterization of `registerSBOM`. -/
theorem registerSBOM_ok_iff {C : Crypto} {s : RegistryState} {sender now hash : Nat}
    {md : String} {sig : List Nat} {s' : RegistryState} :
    registerSBOM C s sender now hash md sig = Except.ok s' ↔
      (s.sbomRecords hash).timestamp = 0 ∧ sig.length = 65 ∧
      recoverSigner C hash sig = Except.ok sender ∧
      (s.vendors sender).verified = true ∧
      s' = registerState s sender now hash md sig := by
  unfold registerSBOM
  by_cases h1 : (s.sbomRecords hash).timestamp = 0
  · by_cases h2 : sig.length = 65
    · rcases hrec : recoverSigner C hash sig with e | signer
      · simp [h1, h2, hrec]
      · by_cases h3 : signer = sender
        · subst h3
          by_cases h4 : (s.vendors signer).verified = true
          · simp [h1, h2, hrec, h4, eq_comm]
          · simp [h1, h2, hrec, h4, eq_false_of_ne_true h4]
        · simp [h1, h2, hrec, h3]
    · simp [h1, h2]
  · simp [h1]

/-- Success characterization of `updateSBOM`. -/
theorem updateSBOM_ok_iff {C : Crypto} {s : RegistryState} {sender now oldHash newHash : Nat}
    {md : String} {sig : List Nat} {s' : RegistryState} :
    updateSBOM C s sender now oldHash newHash md sig = Except.ok s' ↔
      (s.sbomRecords oldHash).timestamp ≠ 0 ∧
      (s.sbomRecords oldHash).vendor = sender ∧
      (s.sbomRecords newHash).timestamp = 0 ∧ sig.length = 65 ∧
      recoverSigner C newHash sig = Except.ok sender ∧
      s' = updateState s sender now oldHash newHash md sig := by
  unfold updateSBOM
  by_cases h0 : (s.sbomRecords oldHash).timestamp = 0
  · simp [h0]
  · by_cases hv : (s.sbomRecords oldHash).vendor = sender
    · by_cases h1 : (s.sbomRecords newHash).timestamp = 0
      · by_cases h2 : sig.length = 65
        · rcases hrec : recoverSigner C newHash sig with e | signer
          · simp [h0, hv, h1, h2, hrec]
          · by_cases h3 : signer = sender
            · subst h3
              simp [h0, hv, h1, h2, hrec, eq_comm]
            · simp [h0, hv, h1, h2, hrec, h3]
        · simp [h0, hv, h1, h2]
      · simp [h0, hv, h1]
    · simp [h0, hv]

/-- A successful `registerVendor` changes only the `vendors` mapping. -/
theorem registerVendor_fields {s : RegistryState} {sender vendor : Nat}
    {name website email : String} {now : Nat} {s' : RegistryState}
    (h : registerVendor s sender vendor name website email now = Except.ok s') :
    s'.sbomRecords = s.sbomRecords ∧ s'.versionHistory = s.versionHistory ∧
    s'.rootHash = s.rootHash ∧ s'.registryOwner = s.registryOwner := by
  unfold registerVendor at h
  split at h
  · cases h
  split at h
  · cases h
  split at h
  · cases h
  split at h
  · cases h
  cases h
  exact ⟨rfl, rfl, rfl, rfl⟩

/-- A successful `revokeVendor` changes only `vendors[vendor].verified`. -/
theorem revokeVendor_fields {s : RegistryState} {sender vendor now : Nat}
    {s' : RegistryState} (h : revokeVendor s sender vendor now = Except.ok s') :
    s'.sbomRecords = s.sbomRecords ∧ s'.versionHistory = s.versionHistory ∧
    s'.rootHash = s.rootHash ∧ s'.registryOwner = s.registryOwner ∧
    (s.vendors vendor).verified = true ∧
    s'.vendors vendor = { s.vendors vendor with verified := false } ∧
    ∀ a, a ≠ vendor → s'.vendors a = s.vendors a := by
  unfold revokeVendor at h
  split at h
  · cases h
  split at h
  · cases h
  next hver =>
  cases h
  refine ⟨rfl, rfl, rfl, rfl, ?_, by simp, ?_⟩
  · cases hb : (s.vendors vendor).verified
    · exact absurd hb hver
    · rfl
  · intro a ha
    simp [ha]

/-- A successful `transferOwnership` changes only `registryOwner`. -/
theorem transferOwnership_fields {s : RegistryState} {sender newOwner : Nat}
    {s' : RegistryState} (h : transferOwnership s sender newOwner = Except.ok s') :
    s'.sbomRecords = s.sbomRecords ∧ s'.versionHistory = s.versionHistory ∧
    s'.rootHash = s.rootHash ∧ s'.vendors = s.vendors := by
  unfold transferOwnership at h
  split at h
  · cases h
  split at h
  · cases h
  cases h
  exact ⟨rfl, rfl, rfl, rfl⟩

/-- No transaction ever modifies or deletes an existing record
(the write target of either SBOM operation is an unregistered hash). -/
theorem step_records_frame (C : Crypto) (s : RegistryState) (op : Op) (h : Nat)
    (hreg : Registered s h) : (step C s op).sbomRecords h = s.sbomRecords h := by
  unfold Registered at hreg
  cases op with
  | registerVendor sender vendor name website email now =>
    simp only [step, txApply]
    rcases ha : registerVendor s sender vendor name website email now with e | s'
    · rfl
    · exact congrFun (registerVendor_fields ha).1 h
  | revokeVendor sender vendor now =>
    simp only [step, txApply]
    rcases ha : revokeVendor s sender vendor now with e | s'
    · rfl
    · exact congrFun (revokeVendor_fields ha).1 h
  | transferOwnership sender newOwner =>
    simp only [step, txApply]
    rcases ha : transferOwnership s sender newOwner with e | s'
    · rfl
    · exact congrFun (transferOwnership_fields ha).1 h
  | registerSBOM sender hash md sig now =>
    simp only [step, txApply]
    rcases ha : registerSBOM C s sender now hash md sig with e | s'
    · rfl
    · rcases registerSBOM_ok_iff.mp ha with ⟨ht, _, _, _, hs'⟩
      subst hs'
      rw [registerState_records]
      have : h ≠ hash := fun hh => hreg (hh ▸ ht)
      simp [this]
  | updateSBOM sender oldHash newHash md sig now =>
    simp only [step, txApply]
    rcases ha : updateSBOM C s sender now oldHash newHash md sig with e | s'
    · rfl
    · rcases updateSBOM_ok_iff.mp ha with ⟨_, _, ht, _, _, hs'⟩
      subst hs'
      rw [updateState_records]
      have : h ≠ newHash := fun hh => hreg (hh ▸ ht)
      simp [this]

/-- Registration is permanent. -/
theorem step_registered (C : Crypto) (s : RegistryState) (op : Op) (h : Nat)
    (hreg : Registered s h) : Registered (step C s op) h := by
  unfold Registered
  rw [step_records_frame C s op h hreg]
  exact hreg

/-- No transaction ever changes `rootHash` at a registered hash. -/
theorem step_root_frame (C : Crypto) (s : RegistryState) (op : Op) (h : Nat)
    (hreg : Registered s h) : (step C s op).rootHash h = s.rootHash h := by
  unfold Registered at hreg
  cases op with
  | registerVendor sender vendor name website email now =>
    simp only [step, txApply]
    rcases ha : registerVendor s sender vendor name website email now with e | s'
    · rfl
    · exact congrFun (registerVendor_fields ha).2.2.1 h
  | revokeVendor sender vendor now =>
    simp only [step, txApply]
    rcases ha : revokeVendor s sender vendor now with e | s'
    · rfl
    · exact congrFun (revokeVendor_fields ha).2.2.1 h
  | transferOwnership sender newOwner =>
    simp only [step, txApply]
    rcases ha : transferOwnership s sender newOwner with e | s'
    · rfl
    · exact congrFun (transferOwnership_fields ha).2.2.1 h
  | registerSBOM sender hash md sig now =>
    simp only [step, txApply]
    rcases ha : registerSBOM C s sender now hash md sig with e | s'
    · rfl
    · rcases registerSBOM_ok_iff.mp ha with ⟨ht, _, _, _, hs'⟩
      subst hs'
      rw [registerState_root]
      have : h ≠ hash := fun hh => hreg (hh ▸ ht)
      simp [this]
  | updateSBOM sender oldHash newHash md sig now =>
    simp only [step, txApply]
    rcases ha : updateSBOM C s sender now oldHash newHash md sig with e | s'
    · rfl
    · rcases updateSBOM_ok_iff.mp ha with ⟨_, _, ht, _, _, hs'⟩
      subst hs'
      rw [updateState_root]
      have : h ≠ newHash := fun hh => hreg (hh ▸ ht)
      simp [this]

theorem run_cons (C : Crypto) (s : RegistryState) (op : Op) (ops : List Op) :
    run C s (op :: ops) = run C (step C s op) ops := rfl

/-- No sequence of further transactions changes an existing record. -/
theorem run_records_frame (C : Crypto) (s : RegistryState) (ops : List Op) (h : Nat)
    (hreg : Registered s h) : (run C s ops).sbomRecords h = s.sbomRecords h := by
  induction ops generalizing s with
  | nil => rfl
  | cons op ops ih =>
    rw [run_cons, ih (step C s op) (step_registered C s op h hreg),
      step_records_frame C s op h hreg]

/-- No sequence of further transactions changes `rootHash` at a registered hash. -/
theorem run_root_frame (C : Crypto) (s : RegistryState) (ops : List Op) (h : Nat)
    (hreg : Registered s h) : (run C s ops).rootHash h = s.rootHash h := by
  induction ops generalizing s with
  | nil => rfl
  | cons op ops ih =>
    rw [run_cons, ih (step C s op) (step_registered C s op h hreg),
      step_root_frame C s op h hreg]

/-! ## The inductive invariant of reachable states -/

/-- Invariant tying the three SBOM tables together on every reachable state. -/
structure Inv (C : Crypto) (s : RegistryState) : Prop where
  hist_empty : ∀ h, ¬ Registered s h → s.versionHistory h = []
  root_zero : ∀ h, ¬ Registered s h → s.rootHash h = 0
  sig_ok : ∀ h, Registered s h →
    recoverSigner C h (s.sbomRecords h).signature = Except.ok (s.sbomRecords h).vendor
  root_reg : ∀ h, Registered s h → Registered s (s.rootHash h)
  root_idem : ∀ h, Registered s h → s.rootHash (s.rootHash h) = s.rootHash h
  prev_zero_root : ∀ h, Registered s h → (s.sbomRecords h).previousHash = 0 →
    Registered s 0 ∨ s.rootHash h = h

theorem registered_registerState {s : RegistryState} {sender now hash : Nat}
    {md : String} {sig : List Nat} (hnow : now ≠ 0) (h : Nat) :
    Registered (registerState s sender now hash md sig) h ↔ h = hash ∨ Registered s h := by
  unfold Registered
  rw [registerState_records]
  by_cases hh : h = hash <;> simp [hh, hnow]

theorem registered_updateState {s : RegistryState} {sender now oldHash newHash : Nat}
    {md : String} {sig : List Nat} (hnow : now ≠ 0) (h : Nat) :
    Registered (updateState s sender now oldHash newHash md sig) h ↔
      h = newHash ∨ Registered s h := by
  unfold Registered
  rw [updateState_records]
  by_cases hh : h = newHash <;> simp [hh, hnow]

theorem inv_registerState {C : Crypto} {s : RegistryState} {sender now hash : Nat}
    {md : String} {sig : List Nat} (hinv : Inv C s) (hnow : now ≠ 0)
    (ht : (s.sbomRecords hash).timestamp = 0)
    (hrec : recoverSigner C hash sig = Except.ok sender) :
    Inv C (registerState s sender now hash md sig) := by
  have hnr : ¬ Registered s hash := by simp [Registered, ht]
  constructor
  case hist_empty =>
    intro h hn
    rw [registered_registerState hnow] at hn
    push_neg at hn
    rw [registerState_hist, if_neg hn.1]
    exact hinv.hist_empty h hn.2
  case root_zero =>
    intro h hn
    rw [registered_registerState hnow] at hn
    push_neg at hn
    rw [registerState_root, if_neg hn.1]
    exact hinv.root_zero h hn.2
  case sig_ok =>
    intro h hr
    rw [registered_registerState hnow] at hr
    rw [registerState_records]
    by_cases hh : h = hash
    · subst hh
      simpa using hrec
    · rw [if_neg hh]
      exact hinv.sig_ok h (hr.resolve_left hh)
  case root_reg =>
    intro h hr
    rw [registered_registerState hnow] at hr
    rw [registered_registerState hnow, registerState_root]
    by_cases hh : h = hash
    · simp [hh]
    · rw [if_neg hh]
      right
      exact hinv.root_reg h (hr.resolve_left hh)
  case root_idem =>
    intro h hr
    rw [registered_registerState hnow] at hr
    rw [registerState_root, registerState_root]
    by_cases hh : h = hash
    · simp [hh]
    · rw [if_neg hh]
      have hr' := hr.resolve_left hh
      by_cases hrh : s.rootHash h = hash
      · rw [if_pos hrh, hrh]
      · rw [if_neg hrh]
        exact hinv.root_idem h hr'
  case prev_zero_root =>
    intro h hr hp
    rw [registered_registerState hnow] at hr
    rw [registerState_records] at hp
    rw [registered_registerState hnow, registerState_root]
    by_cases hh : h = hash
    · right
      simp [hh]
    · rw [if_neg hh] at hp ⊢
      rcases hinv.prev_zero_root h (hr.resolve_left hh) hp with h0 | hroot
      · exact Or.inl (Or.inr h0)
      · exact Or.inr hroot


theorem inv_updateState {C : Crypto} {s : RegistryState} {sender now oldHash newHash : Nat}
    {md : String} {sig : List Nat} (hinv : Inv C s) (hnow : now ≠ 0)
    (ht0 : (s.sbomRecords oldHash).timestamp ≠ 0)
    (htn : (s.sbomRecords newHash).timestamp = 0)
    (hrec : recoverSigner C newHash sig = Except.ok sender) :
    Inv C (updateState s sender now oldHash newHash md sig) := by
  have hold : Registered s oldHash := ht0
  have hnnew : ¬ Registered s newHash := by simp [Registered, htn]
  have hrootreg : Registered s (s.rootHash oldHash) := hinv.root_reg oldHash hold
  have hrootidem : s.rootHash (s.rootHash oldHash) = s.rootHash oldHash :=
    hinv.root_idem oldHash hold
  have hnewroot : newHash ≠ s.rootHash oldHash := fun hh => hnnew (hh ▸ hrootreg)
  constructor
  case hist_empty =>
    intro h hn
    rw [registered_updateState hnow] at hn
    push_neg at hn
    have hhr : h ≠ s.rootHash oldHash := fun hh => hn.2 (hh ▸ hrootreg)
    rw [updateState_hist, if_neg hhr]
    exact hinv.hist_empty h hn.2
  case root_zero =>
    intro h hn
    rw [registered_updateState hnow] at hn
    push_neg at hn
    rw [updateState_root, if_neg hn.1]
    exact hinv.root_zero h hn.2
  case sig_ok =>
    intro h hr
    rw [registered_updateState hnow] at hr
    rw [updateState_records]
    by_cases hh : h = newHash
    · subst hh
      simpa using hrec
    · rw [if_neg hh]
      exact hinv.sig_ok h (hr.resolve_left hh)
  case root_reg =>
    intro h hr
    rw [registered_updateState hnow] at hr
    rw [registered_updateState hnow, updateState_root]
    by_cases hh : h = newHash
    · rw [if_pos hh]
      right
      exact hrootreg
    · rw [if_neg hh]
      right
      exact hinv.root_reg h (hr.resolve_left hh)
  case root_idem =>
    intro h hr
    rw [registered_updateState hnow] at hr
    simp only [updateState_root]
    by_cases hh : h = newHash
    · rw [if_pos hh, if_neg (Ne.symm hnewroot)]
      exact hrootidem
    · rw [if_neg hh]
      have hr' := hr.resolve_left hh
      have hx : s.rootHash h ≠ newHash := fun hx => hnnew (hx ▸ hinv.root_reg h hr')
      rw [if_neg hx]
      exact hinv.root_idem h hr'
  case prev_zero_root =>
    intro h hr hp
    rw [registered_updateState hnow] at hr
    rw [updateState_records] at hp
    rw [registered_updateState hnow, updateState_root]
    by_cases hh : h = newHash
    · rw [if_pos hh] at hp
      have hp' : oldHash = 0 := hp
      left
      right
      rw [← hp']
      exact hold
    · rw [if_neg hh] at hp
      rw [if_neg hh]
      rcases hinv.prev_zero_root h (hr.resolve_left hh) hp with h0 | hroot
      · exact Or.inl (Or.inr h0)
      · exact Or.inr hroot

/-- `Inv` only depends on the three SBOM tables. -/
theorem inv_of_fields {C : Crypto} {s s' : RegistryState} (hinv : Inv C s)
    (h1 : s'.sbomRecords = s.sbomRecords) (h2 : s'.versionHistory = s.versionHistory)
    (h3 : s'.rootHash = s.rootHash) : Inv C s' := by
  have hreg : ∀ h, Registered s' h ↔ Registered s h := by
    intro h
    unfold Registered
    rw [h1]
  constructor
  case hist_empty =>
    intro h hn
    rw [h2]
    exact hinv.hist_empty h (fun hr => hn ((hreg h).mpr hr))
  case root_zero =>
    intro h hn
    rw [h3]
    exact hinv.root_zero h (fun hr => hn ((hreg h).mpr hr))
  case sig_ok =>
    intro h hr
    rw [h1]
    exact hinv.sig_ok h ((hreg h).mp hr)
  case root_reg =>
    intro h hr
    rw [h3, hreg]
    exact hinv.root_reg h ((hreg h).mp hr)
  case root_idem =>
    intro h hr
    rw [h3]
    exact hinv.root_idem h ((hreg h).mp hr)
  case prev_zero_root =>
    intro h hr hp
    rw [h1] at hp
    rw [hreg, h3]
    exact hinv.prev_zero_root h ((hreg h).mp hr) hp

/-- The invariant holds at deployment. -/
theorem inv_genesis (C : Crypto) (owner : Nat) : Inv C (genesis owner) := by
  have hng : ∀ h, ¬ Registered (genesis owner) h := by
    intro h hr
    exact hr rfl
  constructor
  case hist_empty => intro h _; rfl
  case root_zero => intro h _; rfl
  case sig_ok => intro h hr; exact absurd hr (hng h)
  case root_reg => intro h hr; exact absurd hr (hng h)
  case root_idem => intro h hr; exact absurd hr (hng h)
  case prev_zero_root => intro h hr; exact absurd hr (hng h)

/-- Every well-formed transaction preserves the invariant. -/
theorem inv_step {C : Crypto} {s : RegistryState} {op : Op} (hinv : Inv C s)
    (hw : wfOp op = true) : Inv C (step C s op) := by
  cases op with
  | registerVendor sender vendor name website email now =>
    simp only [step, txApply]
    rcases ha : registerVendor s sender vendor name website email now with e | s'
    · exact hinv
    · obtain ⟨h1, h2, h3, _⟩ := registerVendor_fields ha
      exact inv_of_fields hinv h1 h2 h3
  | revokeVendor sender vendor now =>
    simp only [step, txApply]
    rcases ha : revokeVendor s sender vendor now with e | s'
    · exact hinv
    · obtain ⟨h1, h2, h3, _⟩ := revokeVendor_fields ha
      exact inv_of_fields hinv h1 h2 h3
  | transferOwnership sender newOwner =>
    simp only [step, txApply]
    rcases ha : transferOwnership s sender newOwner with e | s'
    · exact hinv
    · obtain ⟨h1, h2, h3, _⟩ := transferOwnership_fields ha
      exact inv_of_fields hinv h1 h2 h3
  | registerSBOM sender hash md sig now =>
    simp only [wfOp, bne_iff_ne, ne_eq] at hw
    simp only [step, txApply]
    rcases ha : registerSBOM C s sender now hash md sig with e | s'
    · exact hinv
    · obtain ⟨ht, _, hrec, _, hs'⟩ := registerSBOM_ok_iff.mp ha
      subst hs'
      exact inv_registerState hinv hw ht hrec
  | updateSBOM sender oldHash newHash md sig now =>
    simp only [wfOp, bne_iff_ne, ne_eq] at hw
    simp only [step, txApply]
    rcases ha : updateSBOM C s sender now oldHash newHash md sig with e | s'
    · exact hinv
    · obtain ⟨ht0, _, htn, _, hrec, hs'⟩ := updateSBOM_ok_iff.mp ha
      subst hs'
      exact inv_updateState hinv hw ht0 htn hrec

/-- The invariant is preserved by any well-formed transaction sequence. -/
theorem run_inv {C : Crypto} {s : RegistryState} {ops : List Op} (hinv : Inv C s)
    (hw : ops.all wfOp = true) : Inv C (run C s ops) := by
  induction ops generalizing s with
  | nil => exact hinv
  | cons op ops ih =>
    rw [List.all_cons, Bool.and_eq_true] at hw
    exact ih (inv_step hinv hw.1) hw.2

/-- Every reachable state satisfies the invariant. -/
theorem reachable_inv {C : Crypto} {s : RegistryState} (h : Reachable C s) : Inv C s := by
  obtain ⟨owner, ops, hw, hrun⟩ := h
  rw [← hrun]
  exact run_inv (inv_genesis C owner) hw

/-! ## The claims -/

/-- `recoverSigner` succeeds only on 65-byte signatures. -/
theorem recoverSigner_ok_length {C : Crypto} {hash : Nat} {sig : List Nat} {a : Nat}
    (h : recoverSigner C hash sig = Except.ok a) : sig.length = 65 := by
  unfold recoverSigner at h
  by_cases hl : sig.length = 65
  · exact hl
  · rw [if_pos hl] at h
    cases h

/-- A successful update appends `newHash` at the end of the resolved history
of `rootHash[oldHash]` (shared computation behind C3 and C10). -/
theorem getVersionHistory_updateState {C : Crypto} {s : RegistryState}
    {sender now oldHash newHash : Nat} {md : String} {sig : List Nat}
    (hinv : Inv C s) (hold : Registered s oldHash)
    (htn : (s.sbomRecords newHash).timestamp = 0) :
    getVersionHistory (updateState s sender now oldHash newHash md sig)
        (s.rootHash oldHash) =
      getVersionHistory s (s.rootHash oldHash) ++ [newHash] := by
  have hrootreg : Registered s (s.rootHash oldHash) := hinv.root_reg oldHash hold
  have hrootidem : s.rootHash (s.rootHash oldHash) = s.rootHash oldHash :=
    hinv.root_idem oldHash hold
  have hnnew : ¬ Registered s newHash := by simp [Registered, htn]
  have hnewroot : s.rootHash oldHash ≠ newHash := fun hh => hnnew (hh ▸ hrootreg)
  unfold getVersionHistory
  rw [updateState_root, if_neg hnewroot, hrootidem, updateState_hist, if_pos rfl]

/-- **C1** (amended): once a record for `h` exists, every later `registerSBOM`
of `h` fails `RecordAlreadyExists`; every later `updateSBOM` targeting `h` as
the new hash fails — with `RecordNotFound` when `oldHash` is unregistered,
with `NotOriginalPublisher` when `oldHash` is registered but the sender is not
its original vendor, and with `RecordAlreadyExists` precisely (if and only if)
when those two earlier checks on `oldHash` pass — and no sequence of further
transactions ever changes the stored record of `h`. -/
theorem C1_uniqueness (C : Crypto) (s : RegistryState) (h : Nat)
    (hreg : Registered s h) :
    (∀ sender now md sig, registerSBOM C s sender now h md sig =
        Except.error RError.RecordAlreadyExists) ∧
    (∀ sender now oldHash md sig s',
        updateSBOM C s sender now oldHash h md sig ≠ Except.ok s') ∧
    (∀ sender now oldHash md sig, ¬ Registered s oldHash →
        updateSBOM C s sender now oldHash h md sig =
          Except.error RError.RecordNotFound) ∧
    (∀ sender now oldHash md sig, Registered s oldHash →
        (s.sbomRecords oldHash).vendor ≠ sender →
        updateSBOM C s sender now oldHash h md sig =
          Except.error RError.NotOriginalPublisher) ∧
    (∀ sender now oldHash md sig,
        updateSBOM C s sender now oldHash h md sig =
            Except.error RError.RecordAlreadyExists ↔
          Registered s oldHash ∧ (s.sbomRecords oldHash).vendor = sender) ∧
    (∀ ops, (run C s ops).sbomRecords h = s.sbomRecords h) := by
  have hne : (s.sbomRecords h).timestamp ≠ 0 := hreg
  have hnf : ∀ sender now oldHash md sig, ¬ Registered s oldHash →
      updateSBOM C s sender now oldHash h md sig =
        Except.error RError.RecordNotFound := by
    intro sender now oldHash md sig hnro
    have ht : (s.sbomRecords oldHash).timestamp = 0 := by
      by_contra hx
      exact hnro hx
    unfold updateSBOM
    rw [if_pos ht]
  have hnop : ∀ sender now oldHash md sig, Registered s oldHash →
      (s.sbomRecords oldHash).vendor ≠ sender →
      updateSBOM C s sender now oldHash h md sig =
        Except.error RError.NotOriginalPublisher := by
    intro sender now oldHash md sig hro hvne
    have hro' : ¬ ((s.sbomRecords oldHash).timestamp = 0) := hro
    unfold updateSBOM
    rw [if_neg hro', if_pos hvne]
  have hrae : ∀ sender now oldHash md sig, Registered s oldHash →
      (s.sbomRecords oldHash).vendor = sender →
      updateSBOM C s sender now oldHash h md sig =
        Except.error RError.RecordAlreadyExists := by
    intro sender now oldHash md sig hro hvo
    have hro' : ¬ ((s.sbomRecords oldHash).timestamp = 0) := hro
    have hvo' : ¬ ((s.sbomRecords oldHash).vendor ≠ sender) := fun hx => hx hvo
    unfold updateSBOM
    rw [if_neg hro', if_neg hvo', if_pos hne]
  refine ⟨?_, ?_, hnf, hnop, ?_, fun ops => run_records_frame C s ops h hreg⟩
  · intro sender now md sig
    unfold registerSBOM
    rw [if_pos hne]
  · intro sender now oldHash md sig s' heq
    obtain ⟨_, _, ht, _⟩ := updateSBOM_ok_iff.mp heq
    exact hne ht
  · intro sender now oldHash md sig
    constructor
    · intro he
      by_cases hro : Registered s oldHash
      · by_cases hv : (s.sbomRecords oldHash).vendor = sender
        · exact ⟨hro, hv⟩
        · have hcontra := (hnop sender now oldHash md sig hro hv).symm.trans he
          injection hcontra with hc
          cases hc
      · have hcontra := (hnf sender now oldHash md sig hro).symm.trans he
        injection hcontra with hc
        cases hc
    · intro ⟨hro, hv⟩
      exact hrae sender now oldHash md sig hro hv

/-- Witness for C1 at the reachable state `demoS1` (hash `5` registered): the
re-registration and all three update failure classes, concretely. -/
theorem C1_uniqueness_witness :
    Registered demoS1 5 ∧
    registerSBOM testCrypto demoS1 2 7 5 "again" (sigFor 2) =
      Except.error RError.RecordAlreadyExists ∧
    updateSBOM testCrypto demoS1 1 7 9 5 "again" (sigFor 1) =
      Except.error RError.RecordNotFound ∧
    updateSBOM testCrypto demoS1 2 7 5 5 "again" (sigFor 2) =
      Except.error RError.NotOriginalPublisher ∧
    updateSBOM testCrypto demoS1 1 7 5 5 "again" (sigFor 1) =
      Except.error RError.RecordAlreadyExists :=
  ⟨by decide,
   (C1_uniqueness testCrypto demoS1 5 (by decide)).1 2 7 "again" (sigFor 2),
   (C1_uniqueness testCrypto demoS1 5 (by decide)).2.2.1 1 7 9 "again" (sigFor 1)
     (by decide),
   (C1_uniqueness testCrypto demoS1 5 (by decide)).2.2.2.1 2 7 5 "again" (sigFor 2)
     (by decide) (by decide),
   ((C1_uniqueness testCrypto demoS1 5 (by decide)).2.2.2.2.1 1 7 5 "again"
     (sigFor 1)).mpr ⟨by decide, by decide⟩⟩

/-- **C1 counterexample**: the claim says every later `updateSBOM` targeting a
registered `h` fails with `RecordAlreadyExists`; in the reachable state
`demoS1` (hash `5` registered) an update targeting `5` whose `oldHash` `9` is
unregistered fails with `RecordNotFound` instead. -/
theorem C1_counterexample :
    Reachable testCrypto demoS1 ∧ Registered demoS1 5 ∧
    updateSBOM testCrypto demoS1 1 9 9 5 "m" (sigFor 1) =
      Except.error RError.RecordNotFound ∧
    updateSBOM testCrypto demoS1 1 9 9 5 "m" (sigFor 1) ≠
      Except.error RError.RecordAlreadyExists := by
  have heq : updateSBOM testCrypto demoS1 1 9 9 5 "m" (sigFor 1) =
      Except.error RError.RecordNotFound := by rfl
  refine ⟨⟨100, demoOps1, by decide, rfl⟩, by decide, heq, ?_⟩
  rw [heq]
  intro hx
  injection hx with hx'
  cases hx'

/-- **C2**: the full functional specification of `registerSBOM` on a reachable
state: the five failure cases in their checked order (already-registered,
signature length, signature version, signer mismatch, unverified vendor), the
exact record/root/history writes on success (`VersionChain[hash]` is freshly
initialized to `[hash]`), the frame on every other key, and no state change on
failure. -/
theorem C2_register_spec (C : Crypto) (s : RegistryState) (sender now hash : Nat)
    (md : String) (sig : List Nat) (hreach : Reachable C s) :
    (Registered s hash → registerSBOM C s sender now hash md sig =
        Except.error RError.RecordAlreadyExists) ∧
    (¬ Registered s hash → sig.length ≠ 65 →
        registerSBOM C s sender now hash md sig =
          Except.error RError.InvalidSignatureLength) ∧
    (¬ Registered s hash → sig.length = 65 →
        ¬ (sigVNorm sig = 27 ∨ sigVNorm sig = 28) →
        registerSBOM C s sender now hash md sig =
          Except.error RError.InvalidSignatureVersion) ∧
    (∀ signer, ¬ Registered s hash →
        recoverSigner C hash sig = Except.ok signer → signer ≠ sender →
        registerSBOM C s sender now hash md sig =
          Except.error RError.SignatureMismatch) ∧
    (¬ Registered s hash → recoverSigner C hash sig = Except.ok sender →
        isVerifiedVendor s sender = false →
        registerSBOM C s sender now hash md sig =
          Except.error RError.PublisherNotVerified) ∧
    (¬ Registered s hash → recoverSigner C hash sig = Except.ok sender →
        isVerifiedVendor s sender = true →
        ∃ s', registerSBOM C s sender now hash md sig = Except.ok s' ∧
          s'.sbomRecords hash =
            { hash := hash, vendor := sender, timestamp := now, metadata := md,
              previousHash := 0, signature := sig } ∧
          s'.rootHash hash = hash ∧
          s'.versionHistory hash = [hash] ∧
          (∀ h', h' ≠ hash → s'.sbomRecords h' = s.sbomRecords h' ∧
            s'.rootHash h' = s.rootHash h' ∧
            s'.versionHistory h' = s.versionHistory h') ∧
          s'.vendors = s.vendors ∧ s'.registryOwner = s.registryOwner) ∧
    (∀ e, registerSBOM C s sender now hash md sig = Except.error e →
        step C s (Op.registerSBOM sender hash md sig now) = s) := by
  refine ⟨?_, ?_, ?_, ?_, ?_, ?_, ?_⟩
  · intro hreg
    have hne : (s.sbomRecords hash).timestamp ≠ 0 := hreg
    unfold registerSBOM
    rw [if_pos hne]
  · intro hnreg hlen
    have ht : ¬ ((s.sbomRecords hash).timestamp ≠ 0) := fun hx => hnreg hx
    unfold registerSBOM
    rw [if_neg ht, if_pos hlen]
  · intro hnreg hlen hv
    have ht : ¬ ((s.sbomRecords hash).timestamp ≠ 0) := fun hx => hnreg hx
    have hrecv : recoverSigner C hash sig = Except.error RError.InvalidSignatureVersion := by
      unfold recoverSigner
      rw [if_neg (by simp [hlen]), if_neg hv]
    unfold registerSBOM
    rw [if_neg ht, if_neg (by simp [hlen]), hrecv]
  · intro signer hnreg hrec hne
    have ht : ¬ ((s.sbomRecords hash).timestamp ≠ 0) := fun hx => hnreg hx
    have hlen := recoverSigner_ok_length hrec
    unfold registerSBOM
    rw [if_neg ht, if_neg (by simp [hlen]), hrec]
    simp only [if_pos hne]
  · intro hnreg hrec hver
    have ht : ¬ ((s.sbomRecords hash).timestamp ≠ 0) := fun hx => hnreg hx
    have hlen := recoverSigner_ok_length hrec
    unfold registerSBOM
    rw [if_neg ht, if_neg (by simp [hlen]), hrec]
    simp only [ne_eq, not_true_eq_false, if_false]
    have hver' : (s.vendors sender).verified = false := hver
    rw [if_pos hver']
  · intro hnreg hrec hver
    have ht : (s.sbomRecords hash).timestamp = 0 := by
      by_contra hx
      exact hnreg hx
    have hlen := recoverSigner_ok_length hrec
    have hver' : (s.vendors sender).verified = true := hver
    refine ⟨registerState s sender now hash md sig,
      registerSBOM_ok_iff.mpr ⟨ht, hlen, hrec, hver', rfl⟩, ?_, ?_, ?_, ?_, rfl, rfl⟩
    · rw [registerState_records, if_pos rfl]
    · rw [registerState_root, if_pos rfl]
    · rw [registerState_hist, if_pos rfl,
        (reachable_inv hreach).hist_empty hash hnreg]
      rfl
    · intro h' hne
      exact ⟨by rw [registerState_records, if_neg hne],
        by rw [registerState_root, if_neg hne],
        by rw [registerState_hist, if_neg hne]⟩
  · intro e he
    simp only [step, txApply]
    rw [he]

/-- Witness for C2: vendor `1` successfully registers hash `5` in the
reachable state `demoSV`, producing exactly the specified writes. -/
theorem C2_register_spec_witness :
    ∃ s', registerSBOM testCrypto demoSV 1 2 5 "v1" (sigFor 1) = Except.ok s' ∧
      s'.sbomRecords 5 =
        { hash := 5, vendor := 1, timestamp := 2, metadata := "v1",
          previousHash := 0, signature := sigFor 1 } ∧
      s'.rootHash 5 = 5 ∧
      s'.versionHistory 5 = [5] ∧
      (∀ h', h' ≠ 5 → s'.sbomRecords h' = demoSV.sbomRecords h' ∧
        s'.rootHash h' = demoSV.rootHash h' ∧
        s'.versionHistory h' = demoSV.versionHistory h') ∧
      s'.vendors = demoSV.vendors ∧ s'.registryOwner = demoSV.registryOwner :=
  (C2_register_spec testCrypto demoSV 1 2 5 "v1" (sigFor 1)
    ⟨100, demoOpsV, by decide, rfl⟩).2.2.2.2.2.1 (by decide) (by rfl) (by decide)

/-- **C3**: every successful `updateSBOM` appends `newHash` at the end of
`history(root)` (so the previous history is a strict prefix — never reordered
or truncated) and raises `versionCount(root)` by exactly 1, where
`root = rootHash[oldHash]`; the new record has `previousHash = oldHash` and
`rootHash[newHash] = root`. -/
theorem C3_update_monotonic (C : Crypto) (s : RegistryState)
    (sender now oldHash newHash : Nat) (md : String) (sig : List Nat)
    (s' : RegistryState) (hreach : Reachable C s)
    (hok : updateSBOM C s sender now oldHash newHash md sig = Except.ok s') :
    getVersionHistory s' (s.rootHash oldHash) =
      getVersionHistory s (s.rootHash oldHash) ++ [newHash] ∧
    getVersionCount s' (s.rootHash oldHash) =
      getVersionCount s (s.rootHash oldHash) + 1 ∧
    (s'.sbomRecords newHash).previousHash = oldHash ∧
    s'.rootHash newHash = s.rootHash oldHash := by
  have hinv := reachable_inv hreach
  obtain ⟨ht0, hv, htn, hlen, hrec, hs'⟩ := updateSBOM_ok_iff.mp hok
  subst hs'
  have hhist :=
    @getVersionHistory_updateState C s sender now oldHash newHash md sig hinv ht0 htn
  refine ⟨hhist, ?_, ?_, ?_⟩
  · show (getVersionHistory (updateState s sender now oldHash newHash md sig)
      (s.rootHash oldHash)).length =
      (getVersionHistory s (s.rootHash oldHash)).length + 1
    rw [hhist, List.length_append, List.length_singleton]
  · rw [updateState_records, if_pos rfl]
  · rw [updateState_root, if_pos rfl]

/-- Witness for C3: the update `5 → 6` on `demoS1` extends the history of
root `5` from `[5]` to `[5, 6]`. -/
theorem C3_update_monotonic_witness :
    getVersionHistory (updateState demoS1 1 3 5 6 "v2" (sigFor 1)) (demoS1.rootHash 5) =
      getVersionHistory demoS1 (demoS1.rootHash 5) ++ [6] ∧
    getVersionCount (updateState demoS1 1 3 5 6 "v2" (sigFor 1)) (demoS1.rootHash 5) =
      getVersionCount demoS1 (demoS1.rootHash 5) + 1 ∧
    ((updateState demoS1 1 3 5 6 "v2" (sigFor 1)).sbomRecords 6).previousHash = 5 ∧
    (updateState demoS1 1 3 5 6 "v2" (sigFor 1)).rootHash 6 = demoS1.rootHash 5 :=
  C3_update_monotonic testCrypto demoS1 1 3 5 6 "v2" (sigFor 1)
    (updateState demoS1 1 3 5 6 "v2" (sigFor 1)) ⟨100, demoOps1, by decide, rfl⟩ (by rfl)

/-- **C4** (amended): `rootHash` of a registered hash is never changed by any
sequence of further transactions; every record added by `updateSBOM` satisfies
`rootHash[newHash] = rootHash[oldHash]`; and — provided the zero hash is not
registered, which the contract does not enforce (see the counterexample) —
every record carrying the null `previousHash` marker is its own root. -/
theorem C4_root_stability (C : Crypto) (s : RegistryState) (hreach : Reachable C s) :
    (∀ ops h, Registered s h → (run C s ops).rootHash h = s.rootHash h) ∧
    (¬ Registered s 0 → ∀ h, Registered s h →
      (s.sbomRecords h).previousHash = 0 → s.rootHash h = h) ∧
    (∀ sender now oldHash newHash md sig s',
      updateSBOM C s sender now oldHash newHash md sig = Except.ok s' →
      s'.rootHash newHash = s'.rootHash oldHash ∧
      s'.rootHash oldHash = s.rootHash oldHash) := by
  refine ⟨fun ops h hreg => run_root_frame C s ops h hreg, ?_, ?_⟩
  · intro h0 h hreg hprev
    rcases (reachable_inv hreach).prev_zero_root h hreg hprev with hz | hr
    · exact absurd hz h0
    · exact hr
  · intro sender now oldHash newHash md sig s' hok
    obtain ⟨ht0, _, htn, _, _, hs'⟩ := updateSBOM_ok_iff.mp hok
    subst hs'
    have hne : oldHash ≠ newHash := fun hh =>
      (show ¬ Registered s newHash by simp [Registered, htn]) (hh ▸ ht0)
    constructor
    · simp [updateState_root, hne]
    · rw [updateState_root, if_neg hne]

/-- Witness for C4: in `demoS1`, the registered hash `5` is its own root, and
a further update `5 → 6` leaves `rootHash[5]` unchanged. -/
theorem C4_root_stability_witness :
    demoS1.rootHash 5 = 5 ∧
    (run testCrypto demoS1 [.updateSBOM 1 5 6 "v2" (sigFor 1) 3]).rootHash 5 =
      demoS1.rootHash 5 :=
  ⟨(C4_root_stability testCrypto demoS1 ⟨100, demoOps1, by decide, rfl⟩).2.1
     (by decide) 5 (by decide) (by decide),
   (C4_root_stability testCrypto demoS1 ⟨100, demoOps1, by decide, rfl⟩).1
     [.updateSBOM 1 5 6 "v2" (sigFor 1) 3] 5 (by decide)⟩

/-- **C4 counterexample**: in the reachable state `zeroSUpd` (the zero hash is
registered, then updated `0 → 5`), record `5` carries `previousHash = 0` — the
null marker — yet `rootHash[5] = 0 ≠ 5`, refuting "a Record created with
`previousHash = null` always satisfies `rootHash[h] == h`". -/
theorem C4_counterexample :
    Reachable testCrypto zeroSUpd ∧ Registered zeroSUpd 5 ∧
    (zeroSUpd.sbomRecords 5).previousHash = 0 ∧ zeroSUpd.rootHash 5 = 0 ∧
    zeroSUpd.rootHash 5 ≠ 5 :=
  ⟨⟨100, zeroOpsUpd, by decide, rfl⟩, by decide, by decide, by decide, by decide⟩

/-- **C7** (amended): on every reachable state the query operations are total:
`verifySBOM`, `getVersionHistory`, `getVersionCount`, `getRootHash`,
`isVerifiedVendor` and `getVendorInfo` are plain functions by construction,
and the two queries that re-run signature recovery on stored data
(`verifySignature`, `verifyCompleteSBOM`) never revert on any input hash.
For an unregistered hash the results are empty/false — `exists = false`,
`(false, 0)`, `(false, false, false, "")` — and, provided the zero hash is
itself unregistered (which the contract does not enforce; see the
counterexample), `history = []` and `versionCount = 0`. -/
theorem C7_queries_total (C : Crypto) (s : RegistryState) (hreach : Reachable C s) :
    (∀ h, exceptOk (verifySignature C s h) = true ∧
      exceptOk (verifyCompleteSBOM C s h) = true) ∧
    (∀ h, ¬ Registered s h →
      (verifySBOM s h).1 = false ∧
      verifySignature C s h = Except.ok (false, 0) ∧
      verifyCompleteSBOM C s h = Except.ok (false, false, false, "") ∧
      (¬ Registered s 0 →
        getVersionHistory s h = [] ∧ getVersionCount s h = 0)) := by
  have hinv := reachable_inv hreach
  have hvs : ∀ h, ∃ v, verifySignature C s h = Except.ok v := by
    intro h
    unfold verifySignature
    by_cases ht : (s.sbomRecords h).timestamp = 0
    · rw [if_pos ht]
      exact ⟨_, rfl⟩
    · rw [if_neg ht, hinv.sig_ok h ht]
      exact ⟨_, rfl⟩
  have hvc : ∀ h, ∃ v, verifyCompleteSBOM C s h = Except.ok v := by
    intro h
    unfold verifyCompleteSBOM
    by_cases ht : (s.sbomRecords h).timestamp = 0
    · rw [if_pos ht]
      exact ⟨_, rfl⟩
    · obtain ⟨v, hv⟩ := hvs h
      rcases v with ⟨valid, signer⟩
      rw [if_neg ht, hv]
      exact ⟨_, rfl⟩
  refine ⟨fun h => ⟨?_, ?_⟩, fun h hn => ?_⟩
  · obtain ⟨v, hv⟩ := hvs h
    rw [hv]
    rfl
  · obtain ⟨v, hv⟩ := hvc h
    rw [hv]
    rfl
  · have ht : (s.sbomRecords h).timestamp = 0 := by
      by_contra hx
      exact hn hx
    refine ⟨?_, ?_, ?_, fun h0 => ?_⟩
    · simp [verifySBOM, ht]
    · unfold verifySignature
      rw [if_pos ht]
    · unfold verifyCompleteSBOM
      rw [if_pos ht]
    · have hroot := hinv.root_zero h hn
      have hhist := hinv.hist_empty 0 h0
      constructor
      · unfold getVersionHistory
        rw [hroot, hhist]
      · unfold getVersionCount
        rw [hroot, hhist]
        rfl

/-- Witness for C7: in the reachable state `demoS1`, the unregistered hash `7`
yields the empty/false results. -/
theorem C7_queries_total_witness :
    verifySignature testCrypto demoS1 7 = Except.ok (false, 0) ∧
    verifyCompleteSBOM testCrypto demoS1 7 = Except.ok (false, false, false, "") ∧
    getVersionHistory demoS1 7 = [] ∧ getVersionCount demoS1 7 = 0 := by
  have h := (C7_queries_total testCrypto demoS1
    ⟨100, demoOps1, by decide, rfl⟩).2 7 (by decide)
  exact ⟨h.2.1, h.2.2.1, (h.2.2.2 (by decide)).1, (h.2.2.2 (by decide)).2⟩

/-- **C7 counterexample**: in the reachable state `zeroS` (the zero hash is
registered), the unregistered hash `7` resolves `rootHash[7] = 0` to the zero
chain, so `getVersionHistory 7 = [0] ≠ []` and `getVersionCount 7 = 1 ≠ 0` —
refuting "absent data yields empty results" as universally stated. -/
theorem C7_counterexample :
    Reachable testCrypto zeroS ∧ ¬ Registered zeroS 7 ∧
    getVersionHistory zeroS 7 = [0] ∧ getVersionHistory zeroS 7 ≠ [] ∧
    getVersionCount zeroS 7 = 1 :=
  ⟨⟨100, zeroOps, by decide, rfl⟩, by decide, by decide, by decide, by decide⟩

/-- **C8**: revocation is not retroactive: when `revokeVendor` succeeds for a
vendor, every hash `h` whose record was stored by that vendor beforehand still
reports `exists = true`, `signatureValid = true` and the vendor's stored name;
only the vendor-trust component flips from `true` to `false`. -/
theorem C8_revocation_semantics (C : Crypto) (s : RegistryState)
    (sender vendor now : Nat) (s' : RegistryState) (hreach : Reachable C s)
    (hrev : revokeVendor s sender vendor now = Except.ok s')
    (h : Nat) (hreg : Registered s h)
    (hvend : (s.sbomRecords h).vendor = vendor) :
    verifyCompleteSBOM C s h =
      Except.ok (true, true, true, (s.vendors vendor).name) ∧
    verifyCompleteSBOM C s' h =
      Except.ok (true, true, false, (s.vendors vendor).name) := by
  have hinv := reachable_inv hreach
  obtain ⟨hrec, hhist, hroot, hown, hver, hvv, hvo⟩ := revokeVendor_fields hrev
  have ht : ¬ ((s.sbomRecords h).timestamp = 0) := hreg
  constructor
  · unfold verifyCompleteSBOM verifySignature
    simp only [if_neg ht]
    rw [hinv.sig_ok h hreg]
    simp [hvend, hver]
  · unfold verifyCompleteSBOM verifySignature
    rw [hrec]
    simp only [if_neg ht]
    rw [hinv.sig_ok h hreg]
    simp [hvend, hvv]

/-- Witness for C8: revoking vendor `1` ("Acme") flips only the trust
component of `verifyCompleteSBOM` for the previously registered hash `5`. -/
theorem C8_revocation_semantics_witness :
    verifyCompleteSBOM testCrypto demoS1 5 = Except.ok (true, true, true, "Acme") ∧
    verifyCompleteSBOM testCrypto demoSRevoked 5 =
      Except.ok (true, true, false, "Acme") :=
  C8_revocation_semantics testCrypto demoS1 100 1 3 demoSRevoked
    ⟨100, demoOps1, by decide, rfl⟩ (by rfl) 5 (by decide) (by decide)

/-- **C10**: `updateSBOM` does not require `oldHash` to be the latest version:
even when some registered record already points at `oldHash` via
`previousHash`, a valid update by the original vendor with a fresh `newHash`
succeeds and appends `newHash` at the end of
`versionHistory[rootHash[oldHash]]` — so `previousHash` links may form a tree
while the history stays one flat list in commit order. -/
theorem C10_update_from_old_version (C : Crypto) (s : RegistryState)
    (sender now oldHash newHash : Nat) (md : String) (sig : List Nat)
    (hreach : Reachable C s)
    (hold : Registered s oldHash)
    (hvend : (s.sbomRecords oldHash).vendor = sender)
    (hnew : (s.sbomRecords newHash).timestamp = 0)
    (hlen : sig.length = 65)
    (hrec : recoverSigner C newHash sig = Except.ok sender)
    (hsucc : ∃ h', Registered s h' ∧ (s.sbomRecords h').previousHash = oldHash) :
    updateSBOM C s sender now oldHash newHash md sig =
      Except.ok (updateState s sender now oldHash newHash md sig) ∧
    getVersionHistory (updateState s sender now oldHash newHash md sig)
        (s.rootHash oldHash) =
      getVersionHistory s (s.rootHash oldHash) ++ [newHash] :=
  ⟨updateSBOM_ok_iff.mpr ⟨hold, hvend, hnew, hlen, hrec, rfl⟩,
   getVersionHistory_updateState (reachable_inv hreach) hold hnew⟩

/-- Witness for C10: in `demoSFork` hash `5` already has the successor `6`
(`previousHash 6 = 5`), yet the fork update `5 → 7` succeeds and appends `7`
to the chain history `[5, 6]`. -/
theorem C10_update_from_old_version_witness :
    Registered demoSFork 6 ∧ (demoSFork.sbomRecords 6).previousHash = 5 ∧
    updateSBOM testCrypto demoSFork 1 4 5 7 "v3" (sigFor 1) =
      Except.ok (updateState demoSFork 1 4 5 7 "v3" (sigFor 1)) ∧
    getVersionHistory (updateState demoSFork 1 4 5 7 "v3" (sigFor 1))
        (demoSFork.rootHash 5) =
      getVersionHistory demoSFork (demoSFork.rootHash 5) ++ [7] := by
  have h := C10_update_from_old_version testCrypto demoSFork 1 4 5 7 "v3" (sigFor 1)
    ⟨100, demoOpsFork, by decide, rfl⟩ (by decide) (by decide) (by decide) (by decide)
    (by rfl) ⟨6, by decide, by decide⟩
  exact ⟨by decide, by decide, h.1, h.2⟩


/-- **C9**: `recoverSigner` fails `InvalidSignatureLength` iff the signature is
not exactly 65 bytes; otherwise it adds 27 to the final recovery-discriminant
byte when that byte is below 27, fails `InvalidSignatureVersion` iff the
normalized value is neither 27 nor 28, and when both checks pass returns the
identity `ecrecover`ed from the domain-separated digest (the fixed
`"\x19Ethereum Signed Message:\n32"` ASCII prefix concatenated with the raw
32-byte digest). It is a pure function of `(C, hash, sig)`: no state is read
or written. -/
theorem C9_recoverSigner_spec (C : Crypto) (hash : Nat) (sig : List Nat) :
    (sigV sig < 27 → sigVNorm sig = sigV sig + 27) ∧
    (¬ sigV sig < 27 → sigVNorm sig = sigV sig) ∧
    (recoverSigner C hash sig = Except.error RError.InvalidSignatureLength ↔
      sig.length ≠ 65) ∧
    (recoverSigner C hash sig = Except.error RError.InvalidSignatureVersion ↔
      sig.length = 65 ∧ ¬ (sigVNorm sig = 27 ∨ sigVNorm sig = 28)) ∧
    (sig.length = 65 → (sigVNorm sig = 27 ∨ sigVNorm sig = 28) →
      recoverSigner C hash sig = Except.ok
        (C.ecrecover (C.keccak (ethMessagePrefixBytes ++ natToBytes32 hash))
          (sigVNorm sig) (sigR sig) (sigS sig))) := by
  refine ⟨fun h => by simp [sigVNorm, h], fun h => by simp [sigVNorm, h], ?_, ?_, ?_⟩
  · unfold recoverSigner
    by_cases hl : sig.length = 65
    · simp only [hl, ne_eq, not_true_eq_false, if_false, iff_false]
      split <;> simp
    · simp [hl]
  · unfold recoverSigner
    by_cases hl : sig.length = 65
    · simp only [hl, ne_eq, not_true_eq_false, if_false, true_and]
      split <;> simp_all
    · simp [hl]
  · intro hl hv
    unfold recoverSigner
    rw [if_neg (by simp [hl]), if_pos hv]
    rfl

/-- Witness for C9: a concrete well-formed signature recovers to the
`ecrecover` output on the prefixed digest. -/
theorem C9_recoverSigner_spec_witness :
    recoverSigner testCrypto 5 (sigFor 1) = Except.ok
      (testCrypto.ecrecover (testCrypto.keccak (ethMessagePrefixBytes ++ natToBytes32 5))
        (sigVNorm (sigFor 1)) (sigR (sigFor 1)) (sigS (sigFor 1))) :=
  (C9_recoverSigner_spec testCrypto 5 (sigFor 1)).2.2.2.2 (by decide) (by decide)

/-- **C6**: `updateSBOM` fails `NotOriginalPublisher` whenever the sender
differs from the stored record's vendor, for every signature argument — the
ownership `require` precedes every signature length/version/recovery check. -/
theorem C6_update_ownership (C : Crypto) (s : RegistryState)
    (sender now oldHash newHash : Nat) (md : String) (sig : List Nat)
    (hreg : Registered s oldHash)
    (hne : (s.sbomRecords oldHash).vendor ≠ sender) :
    updateSBOM C s sender now oldHash newHash md sig =
      Except.error RError.NotOriginalPublisher := by
  have hreg' : ¬ ((s.sbomRecords oldHash).timestamp = 0) := hreg
  unfold updateSBOM
  rw [if_neg hreg', if_pos hne]

/-- Witness for C6: attacker `2` holds a fully valid signature over the new
hash `6`, yet the update of vendor `1`'s record `5` fails
`NotOriginalPublisher`. -/
theorem C6_update_ownership_witness :
    recoverSigner testCrypto 6 (sigFor 2) = Except.ok 2 ∧
    updateSBOM testCrypto demoS1 2 9 5 6 "mal" (sigFor 2) =
      Except.error RError.NotOriginalPublisher :=
  ⟨by rfl,
   C6_update_ownership testCrypto demoS1 2 9 5 6 "mal" (sigFor 2)
     (by decide) (by decide)⟩

/-- **C5**: `updateSBOM` never consults the vendor's current `verified` flag:
with a registered `oldHash` owned by the sender, a fresh `newHash`, and a
well-formed signature recovering to the sender, the update succeeds even when
`isVerifiedVendor sender` is `false`. -/
theorem C5_update_skips_verification (C : Crypto) (s : RegistryState)
    (sender now oldHash newHash : Nat) (md : String) (sig : List Nat)
    (hold : Registered s oldHash)
    (hvend : (s.sbomRecords oldHash).vendor = sender)
    (hnew : (s.sbomRecords newHash).timestamp = 0)
    (hlen : sig.length = 65)
    (hrec : recoverSigner C newHash sig = Except.ok sender)
    (hunver : isVerifiedVendor s sender = false) :
    updateSBOM C s sender now oldHash newHash md sig =
      Except.ok (updateState s sender now oldHash newHash md sig) :=
  updateSBOM_ok_iff.mpr ⟨hold, hvend, hnew, hlen, hrec, rfl⟩

/-- Witness for C5: after `revokeVendor 1`, the revoked-but-original vendor `1`
still extends its chain `5 → 6`. -/
theorem C5_update_skips_verification_witness :
    isVerifiedVendor demoSRevoked 1 = false ∧
    updateSBOM testCrypto demoSRevoked 1 4 5 6 "v2" (sigFor 1) =
      Except.ok (updateState demoSRevoked 1 4 5 6 "v2" (sigFor 1)) :=
  ⟨by decide,
   C5_update_skips_verification testCrypto demoSRevoked 1 4 5 6 "v2" (sigFor 1)
     (by decide) (by decide) (by decide) (by decide) (by rfl) (by decide)⟩

end SBOMReg
